import Mathlib

/-!
Verification of the sergey static-analysis engine: a shallow embedding of
the diagnostic pipeline (analyzer, suppression resolver, configuration
resolver, fix applier) together with theorems about its behaviour.

Python text is modelled at the level of characters (Python strings are
sequences of code points, and all slicing in the source is by index).
Machine-independent data (rule ids, diagnostics, configuration) is modelled
with the corresponding Lean structures.  Fallible external calls (the
parser, the file system, importlib) are modelled as explicit oracles of
Except type; a Python function that may raise is embedded with an Except
result, and a try/except block is embedded by matching on that result.
-/

namespace Sergey

/-! ## Basic data model (sergey/rules/base.py) -/

/-- LSP diagnostic severity levels, from base.Severity. -/
inductive Severity where
  | ERROR
  | WARNING
  | INFORMATION
  | HINT
deriving DecidableEq, Repr

/-- Modelled from the spec: a single textual edit with its own span, as
carried in Fix.additional_edits.  The Fix data shape is referenced by the
rule modules and the fix applier but its declaration is not among the
provided sources; attributes follow the spec (span plus replacement). -/
structure Edit where
  line : Nat
  col : Nat
  end_line : Nat
  end_col : Nat
  replacement : String
deriving DecidableEq, Repr

/-- Modelled from the spec: a proposed textual replacement for a
diagnostic's span, with replacement text and an ordered sequence of
additional independent edits. -/
structure Fix where
  replacement : String
  additional_edits : List Edit := []
deriving DecidableEq, Repr

/-- A single diagnostic emitted by a rule, from base.Diagnostic.  The
fix attribute is modelled from the spec (optional attached Fix); the other
attributes follow the source declaration. -/
structure Diagnostic where
  rule_id : String
  message : String
  line : Nat
  col : Nat
  end_line : Nat
  end_col : Nat
  severity : Severity
  fix : Option Fix := none
deriving DecidableEq, Repr

/-! ## Python text primitives

The suppression resolver and the fix applier work on raw source text via
str.splitlines, str.split, str.strip, str.upper and slicing.  These are
modelled on lists of characters. -/

/-- The character class matched by a regex \s escape, restricted to the
ASCII whitespace characters (the sources only ever place ASCII in
suppression comments). -/
def isSpacePy (c : Char) : Bool :=
  c = ' ' || c = '\t' || c = '\n' || c = '\r' || c = '\x0b' || c = '\x0c'

/-- str.splitlines with keepends=False, for the terminators LF, CRLF and
CR (the terminators that occur in the analysed sources). -/
def splitlinesChars : List Char → List (List Char)
  | [] => []
  | '\r' :: '\n' :: rest => [] :: splitlinesChars rest
  | '\n' :: rest => [] :: splitlinesChars rest
  | '\r' :: rest => [] :: splitlinesChars rest
  | c :: rest =>
    match splitlinesChars rest with
    | [] => [[c]]
    | l :: ls => (c :: l) :: ls

/-- str.splitlines with keepends=True, for the terminators LF, CRLF and
CR. -/
def splitlinesKeepChars : List Char → List (List Char)
  | [] => []
  | '\r' :: '\n' :: rest => ['\r', '\n'] :: splitlinesKeepChars rest
  | '\n' :: rest => ['\n'] :: splitlinesKeepChars rest
  | '\r' :: rest => ['\r'] :: splitlinesKeepChars rest
  | c :: rest =>
    match splitlinesKeepChars rest with
    | [] => [[c]]
    | l :: ls => (c :: l) :: ls

/-- source.splitlines() on a String, as used by the suppression scanner. -/
def splitlinesPy (s : String) : List String :=
  (splitlinesChars s.data).map String.mk

/-- str.split on a comma separator: every comma produces a boundary and
the empty input yields one empty part. -/
def splitCommaChars : List Char → List (List Char)
  | [] => [[]]
  | c :: rest =>
    if c = ',' then [] :: splitCommaChars rest
    else
      match splitCommaChars rest with
      | [] => [[c]]
      | p :: ps => (c :: p) :: ps

/-- Remove trailing whitespace characters. -/
def rstripChars : List Char → List Char
  | [] => []
  | c :: rest =>
    let r := rstripChars rest
    if r.isEmpty then (if isSpacePy c then [] else [c]) else c :: r

/-- str.strip(): remove leading and trailing whitespace characters. -/
def stripChars (cs : List Char) : List Char :=
  rstripChars (cs.dropWhile isSpacePy)

/-- str.upper on a character list (the rule ids in scope are ASCII). -/
def upperChars (cs : List Char) : List Char :=
  cs.map Char.toUpper

/-! ## Suppression directive patterns (sergey/analyzer.py)

The two regexes
  _LINE_NOQA_PAT    = #\s*sergey:\s*noqa(?::\s*([A-Z0-9][A-Z0-9,\s]*))?
  _FILE_DISABLE_PAT = #\s*sergey:\s*disable-file(?::\s*([A-Z0-9][A-Z0-9,\s]*))?
are compiled with IGNORECASE and used through re.search.  Both share one
shape: a literal #, optional whitespace, the literal sergey:, optional
whitespace, the keyword, then an optional colon-introduced capture that
starts with an alphanumeric and greedily extends over alphanumerics,
commas and whitespace.  The matcher below implements exactly that shape:
the greedy \s* runs never need backtracking because the character that
must follow them is never itself whitespace, and the optional group is
attempted first and abandoned only when its mandatory first character is
absent, as the regex engine would. -/

/-- A character matched by [A-Z0-9] under IGNORECASE. -/
def isIdHeadChar (c : Char) : Bool :=
  ('A' ≤ c && c ≤ 'Z') || ('a' ≤ c && c ≤ 'z') || ('0' ≤ c && c ≤ '9')

/-- A character matched by [A-Z0-9,\s] under IGNORECASE. -/
def isIdTailChar (c : Char) : Bool :=
  isIdHeadChar c || c = ',' || isSpacePy c

/-- Case-insensitive literal match: returns the remaining input when the
pattern characters all match. -/
def matchLitCI : List Char → List Char → Option (List Char)
  | [], rest => some rest
  | _ :: _, [] => none
  | p :: ps, c :: cs =>
    if p.toLower = c.toLower then matchLitCI ps cs else none

/-- Attempt the directive pattern with the given keyword at the start of
the input.  Returns none when there is no match here, some none for a
match without a rule-id capture, and some (some cap) for a match whose
capture group took cap. -/
def matchDirectiveAt (keyword : List Char) (cs : List Char) : Option (Option (List Char)) :=
  match cs with
  | '#' :: rest =>
    match matchLitCI "sergey:".data (rest.dropWhile isSpacePy) with
    | none => none
    | some r2 =>
      match matchLitCI keyword (r2.dropWhile isSpacePy) with
      | none => none
      | some r4 =>
        match r4 with
        | ':' :: r5 =>
          match r5.dropWhile isSpacePy with
          | c :: r7 =>
            if isIdHeadChar c then some (some (c :: r7.takeWhile isIdTailChar))
            else some none
          | [] => some none
        | _ => some none
  | _ => none

/-- re.search with the directive pattern: try every start position from
the left and return the first match. -/
def searchDirective (keyword : List Char) : List Char → Option (Option (List Char))
  | [] => none
  | c :: rest =>
    match matchDirectiveAt keyword (c :: rest) with
    | some r => some r
    | none => searchDirective keyword rest

/-- _LINE_NOQA_PAT.search on one line. -/
def searchNoqa (line : List Char) : Option (Option (List Char)) :=
  searchDirective "noqa".data line

/-- _FILE_DISABLE_PAT.search on one line. -/
def searchDisable (line : List Char) : Option (Option (List Char)) :=
  searchDirective "disable-file".data line

/-! ## Suppression resolution (sergey/analyzer.py) -/

/-- _rule_ids: parse rule IDs from a suppression comment capture group.
Returns none to indicate all rules are suppressed, or the specific
uppercased rule IDs. -/
def _rule_ids : Option (List Char) → Option (List String)
  | none => none
  | some cs =>
    if (stripChars cs).isEmpty then none
    else
      let ids := (((splitCommaChars cs).map stripChars).filter (fun p => !p.isEmpty)).map
        (fun p => String.mk (upperChars p))
      if ids.isEmpty then none else some ids

/-- _covers: true when rule_id falls within the suppression set; none
means all rules are suppressed. -/
def _covers (suppressed : Option (List String)) (rule_id : String) : Bool :=
  match suppressed with
  | none => true
  | some ids => ids.contains rule_id

/-- The mutable locals of the scanning loop in _apply_suppressions. -/
structure SupState where
  file_sup_active : Bool
  file_sup_rules : Option (List String)
  line_sups : List (Nat × Option (List String))
deriving Repr

/-- One iteration of the scanning loop of _apply_suppressions, for the
line with 1-based number lineno. -/
def supStep (st : SupState) (entry : Nat × String) : SupState :=
  let st1 :=
    match searchDisable entry.2.data with
    | some cap => { st with file_sup_active := true, file_sup_rules := _rule_ids cap }
    | none => st
  match searchNoqa entry.2.data with
  | some cap => { st1 with line_sups := st1.line_sups ++ [(entry.1, _rule_ids cap)] }
  | none => st1

/-- The scanning loop of _apply_suppressions over the enumerated lines. -/
def scanSuppressions (lines : List String) : SupState :=
  (lines.enumFrom 1).foldl supStep ⟨false, none, []⟩

/-- The predicate deciding that a diagnostic is dropped, from the list
comprehension at the end of _apply_suppressions. -/
def isSuppressed (st : SupState) (diag : Diagnostic) : Bool :=
  (st.file_sup_active && _covers st.file_sup_rules diag.rule_id)
    || (match st.line_sups.lookup diag.line with
        | some sup => _covers sup diag.rule_id
        | none => false)

/-- _apply_suppressions: remove diagnostics covered by inline sergey
suppression comments. -/
def _apply_suppressions (diagnostics : List Diagnostic) (source : String) : List Diagnostic :=
  let st := scanSuppressions (splitlinesPy source)
  diagnostics.filter (fun diag => !isSuppressed st diag)

/-! ## The analyzer (sergey/analyzer.py) -/

/-- The sort key comparison used by Analyzer.analyze: Python sorted with
key (diag.line, diag.col), i.e. a stable sort by that lexicographic
key. -/
def diagKeyLE (a b : Diagnostic) : Bool :=
  a.line < b.line || (a.line == b.line && a.col ≤ b.col)

/-- Analyzer.analyze: parse source (through the external parser oracle,
whose syntax-error outcome is modelled as Except.error), run all rule
check functions in registry order, sort the concatenation by (line, col),
and apply inline suppressions.  Returns the empty list when the source
cannot be parsed. -/
def analyze {Tree : Type} (rules : List (Tree → String → List Diagnostic))
    (parse : String → Except Unit Tree) (source : String) : List Diagnostic :=
  match parse source with
  | .error _ => []
  | .ok tree =>
    _apply_suppressions
      (((rules.map (fun check => check tree source)).flatten).mergeSort diagKeyLE)
      source

/-! ## Characterization of the suppression scan

These auxiliary definitions describe the result of the scanning loop: the
file-level record kept after the loop is the one of the last matching
line (each match overwrites the previous record), and the line-level
records are one entry per matching line, keyed by its 1-based number. -/

/-- The capture of the last line matching the file-disable pattern, if
any line matches. -/
def lastDisable : List String → Option (Option (List Char))
  | [] => none
  | l :: rest =>
    match lastDisable rest with
    | some cap => some cap
    | none => searchDisable l.data

/-- The line-suppression records generated by the lines, with 1-based
numbering starting at n. -/
def noqaRecords (n : Nat) : List String → List (Nat × Option (List String))
  | [] => []
  | l :: rest =>
    match searchNoqa l.data with
    | some cap => (n, _rule_ids cap) :: noqaRecords (n + 1) rest
    | none => noqaRecords (n + 1) rest

theorem scanFold_eq (lines : List String) : ∀ (st : SupState) (n : Nat),
    (lines.enumFrom n).foldl supStep st =
      ⟨match lastDisable lines with
        | some _ => true
        | none => st.file_sup_active,
       match lastDisable lines with
        | some cap => _rule_ids cap
        | none => st.file_sup_rules,
       st.line_sups ++ noqaRecords n lines⟩ := by
  induction lines with
  | nil => intro st n; simp [lastDisable, noqaRecords]
  | cons l rest ih =>
    intro st n
    rw [List.enumFrom_cons, List.foldl_cons, ih]
    simp only [supStep, lastDisable, noqaRecords]
    cases hrest : lastDisable rest with
    | some cap =>
      cases hd : searchDisable l.data <;>
        cases hn : searchNoqa l.data <;>
          simp [hd, hn]
    | none =>
      cases hd : searchDisable l.data <;>
        cases hn : searchNoqa l.data <;>
          simp [hd, hn]

theorem scanSuppressions_eq (lines : List String) :
    scanSuppressions lines =
      ⟨(lastDisable lines).isSome,
       match lastDisable lines with
        | some cap => _rule_ids cap
        | none => none,
       noqaRecords 1 lines⟩ := by
  rw [scanSuppressions, scanFold_eq]
  cases h : lastDisable lines <;> simp [h]

theorem lookup_noqaRecords (k : Nat) : ∀ (lines : List String) (n : Nat),
    (noqaRecords n lines).lookup k =
      if k < n then none
      else (lines[k - n]?).bind (fun l => (searchNoqa l.data).map _rule_ids) := by
  intro lines
  induction lines with
  | nil => intro n; simp [noqaRecords]
  | cons l rest ih =>
    intro n
    simp only [noqaRecords]
    cases hn : searchNoqa l.data with
    | some cap =>
      by_cases hkn : k = n
      · subst hkn
        simp [List.lookup, hn]
      · rw [List.lookup]
        have : (k == n) = false := by simp [hkn]
        rw [this]
        simp only [cond_false, ih (n + 1)]
        by_cases hlt : k < n
        · have h1 : k < n + 1 := by omega
          simp [hlt, h1]
        · have h1 : ¬ k < n + 1 := by omega
          have h2 : k - n = (k - (n + 1)) + 1 := by omega
          simp [hlt, h1, h2]
    | none =>
      rw [ih (n + 1)]
      by_cases hlt : k < n
      · have h1 : k < n + 1 := by omega
        simp [hlt, h1]
      · by_cases hkn : k = n
        · subst hkn
          have h1 : k < k + 1 := by omega
          simp [h1, hn]
        · have h1 : ¬ k < n + 1 := by omega
          have h2 : k - n = (k - (n + 1)) + 1 := by omega
          simp [hlt, h1, h2]

/-! ## Sort-order facts -/

theorem diagKeyLE_trans (a b c : Diagnostic) (hab : diagKeyLE a b) (hbc : diagKeyLE b c) :
    diagKeyLE a c := by
  simp only [diagKeyLE, Bool.or_eq_true, Bool.and_eq_true, decide_eq_true_eq, beq_iff_eq,
    Nat.decLe, decide_eq_true_eq] at *
  omega

theorem diagKeyLE_total (a b : Diagnostic) : diagKeyLE a b || diagKeyLE b a := by
  simp only [diagKeyLE, Bool.or_eq_true, Bool.and_eq_true, decide_eq_true_eq, beq_iff_eq] at *
  omega

/-! ## Claim theorems: analyzer behaviour -/

/-- C1: for every source string on which the parser fails (a syntax
error at the parser boundary), Analyzer.analyze returns the empty
diagnostic list; the failure is caught, never propagated. -/
theorem analyze_parse_failure {Tree : Type} (rules : List (Tree → String → List Diagnostic))
    (parse : String → Except Unit Tree) (source : String) (e : Unit)
    (h : parse source = .error e) : analyze rules parse source = [] := by
  unfold analyze
  rw [h]

theorem analyze_parse_failure_witness :
    analyze ([] : List (Unit → String → List Diagnostic)) (fun _ => Except.error ()) "def f(" = [] :=
  analyze_parse_failure [] (fun _ => Except.error ()) "def f(" () rfl

/-- C3: in the list returned by Analyzer.analyze, whenever D1 appears
before D2 the key (line, col) of D1 is lexicographically at most that of
D2, and the diagnostics sharing one (line, col) key appear in
rule-registry emission order: they form a sublist of the concatenated
per-rule outputs, in concatenation order. -/
theorem analyze_sorted_and_stable {Tree : Type} (rules : List (Tree → String → List Diagnostic))
    (parse : String → Except Unit Tree) (source : String) :
    (analyze rules parse source).Pairwise (fun a b => diagKeyLE a b = true)
    ∧ ∀ (tree : Tree), parse source = .ok tree → ∀ (l c : Nat),
        List.Sublist
          ((analyze rules parse source).filter (fun d => d.line == l && d.col == c))
          (((rules.map (fun check => check tree source)).flatten).filter
                (fun d => d.line == l && d.col == c)) := by
  constructor
  · unfold analyze
    cases hp : parse source with
    | error e => simp
    | ok tree =>
      apply List.Pairwise.sublist (List.filter_sublist _)
      exact List.sorted_mergeSort diagKeyLE_trans diagKeyLE_total _
  · intro tree hp l c
    have hana : analyze rules parse source =
        (((rules.map (fun check => check tree source)).flatten).mergeSort diagKeyLE).filter
          (fun diag => !isSuppressed (scanSuppressions (splitlinesPy source)) diag) := by
      unfold analyze
      rw [hp]
      rfl
    set L := (rules.map (fun check => check tree source)).flatten with hL
    set f : Diagnostic → Bool := fun d => d.line == l && d.col == c with hf
    have hmemf : ∀ d ∈ L.filter f, f d = true := by
      intro d hd
      exact List.of_mem_filter hd
    have hpair : (L.filter f).Pairwise (fun a b => diagKeyLE a b = true) := by
      apply List.pairwise_of_forall_mem_list
      intro a ha b hb
      have ha' := hmemf a ha
      have hb' := hmemf b hb
      simp only [hf, Bool.and_eq_true, beq_iff_eq] at ha' hb'
      simp [diagKeyLE, ha'.1, ha'.2, hb'.1, hb'.2]
    have hsub : List.Sublist (L.filter f) (L.mergeSort diagKeyLE) :=
      List.sublist_mergeSort diagKeyLE_trans diagKeyLE_total hpair (List.filter_sublist L)
    have hsub2 : List.Sublist ((L.filter f).filter f) ((L.mergeSort diagKeyLE).filter f) :=
      List.Sublist.filter f hsub
    rw [List.filter_eq_self.mpr hmemf] at hsub2
    have hperm : List.Perm ((L.mergeSort diagKeyLE).filter f) (L.filter f) :=
      (List.mergeSort_perm L diagKeyLE).filter f
    have heq : (L.mergeSort diagKeyLE).filter f = L.filter f :=
      ((hsub2.eq_of_length hperm.length_eq.symm)).symm
    rw [hana]
    exact heq ▸ List.Sublist.filter f (List.filter_sublist _)

/-- A diagnostic value used to instantiate theorems at concrete inputs. -/
def mkDiag (id : String) (line col : Nat) : Diagnostic :=
  ⟨id, "msg", line, col, line, col + 1, Severity.WARNING, none⟩

theorem analyze_sorted_and_stable_witness :
    (analyze [fun (_ : Unit) (_ : String) => [mkDiag "IMP001" 1 0]]
        (fun _ => Except.ok ()) "import os").Pairwise (fun a b => diagKeyLE a b = true)
    ∧ List.Sublist
        ((analyze [fun (_ : Unit) (_ : String) => [mkDiag "IMP001" 1 0]]
            (fun _ => Except.ok ()) "import os").filter (fun d => d.line == 1 && d.col == 0))
        ((([fun (_ : Unit) (_ : String) => [mkDiag "IMP001" 1 0]].map
            (fun check => check () "import os")).flatten).filter
              (fun d => d.line == 1 && d.col == 0)) :=
  ⟨(analyze_sorted_and_stable _ _ _).1,
   (analyze_sorted_and_stable _ _ _).2 () rfl 1 0⟩

/-! ## Facts about the directive patterns -/

theorem space_not_idHead (c : Char) (h : isSpacePy c = true) : isIdHeadChar c = false := by
  simp only [isSpacePy, Bool.or_eq_true, decide_eq_true_eq] at h
  rcases h with ((((h | h) | h) | h) | h) | h <;> subst h <;> decide

theorem idHead_not_space (c : Char) (h : isIdHeadChar c = true) : isSpacePy c = false := by
  cases hs : isSpacePy c with
  | false => rfl
  | true => rw [space_not_idHead c hs] at h; exact absurd h (by simp)

theorem idHead_ne_comma (c : Char) (h : isIdHeadChar c = true) : c ≠ ',' := by
  intro heq
  subst heq
  exact absurd h (by decide)

theorem matchDirectiveAt_capture (kw cs : List Char) (cap : List Char)
    (h : matchDirectiveAt kw cs = some (some cap)) :
    ∃ c rest, cap = c :: rest ∧ isIdHeadChar c = true := by
  unfold matchDirectiveAt at h
  repeat' split at h
  all_goals simp only [Option.some.injEq, reduceCtorEq] at h
  all_goals
    subst h
    rename_i hc
    exact ⟨_, _, rfl, hc⟩

theorem searchDirective_capture (kw : List Char) : ∀ (cs cap : List Char),
    searchDirective kw cs = some (some cap) →
    ∃ c rest, cap = c :: rest ∧ isIdHeadChar c = true := by
  intro cs
  induction cs with
  | nil => intro cap h; exact absurd h (by simp [searchDirective])
  | cons c0 rest ih =>
    intro cap h
    rw [searchDirective] at h
    cases hm : matchDirectiveAt kw (c0 :: rest) with
    | some r =>
      rw [hm] at h
      cases h
      exact matchDirectiveAt_capture kw (c0 :: rest) cap hm
    | none =>
      rw [hm] at h
      exact ih cap h

theorem splitCommaChars_ne_nil (cs : List Char) : splitCommaChars cs ≠ [] := by
  cases cs with
  | nil => simp [splitCommaChars]
  | cons c rest =>
    rw [splitCommaChars]
    split
    · simp
    · cases h : splitCommaChars rest <;> simp

theorem rstripChars_cons_ne_nil (c : Char) (cs : List Char) (h : isSpacePy c = false) :
    rstripChars (c :: cs) ≠ [] := by
  rw [rstripChars]
  split
  · rw [h]; simp
  · simp

theorem stripChars_cons_ne_nil (c : Char) (cs : List Char) (h : isSpacePy c = false) :
    stripChars (c :: cs) ≠ [] := by
  unfold stripChars
  rw [List.dropWhile_cons, h]
  simp only [Bool.false_eq_true, if_false]
  exact rstripChars_cons_ne_nil c cs h

/-- A capture that begins with an alphanumeric character always parses to
a nonempty specific rule-id set. -/
theorem rule_ids_of_capture (c : Char) (rest : List Char) (hc : isIdHeadChar c = true) :
    _rule_ids (some (c :: rest)) =
      some ((((splitCommaChars (c :: rest)).map stripChars).filter (fun p => !p.isEmpty)).map
        (fun p => String.mk (upperChars p)))
    ∧ (((splitCommaChars (c :: rest)).map stripChars).filter (fun p => !p.isEmpty)) ≠ [] := by
  have hns : isSpacePy c = false := idHead_not_space c hc
  have hstrip : stripChars (c :: rest) ≠ [] := stripChars_cons_ne_nil c rest hns
  have hsplit : ∃ p ps, splitCommaChars (c :: rest) = (c :: p) :: ps := by
    rw [splitCommaChars, if_neg (idHead_ne_comma c hc)]
    cases h : splitCommaChars rest with
    | nil => exact absurd h (splitCommaChars_ne_nil rest)
    | cons p ps => exact ⟨p, ps, rfl⟩
  obtain ⟨p, ps, hp⟩ := hsplit
  have hkeep : (((splitCommaChars (c :: rest)).map stripChars).filter
      (fun q => !q.isEmpty)) ≠ [] := by
    rw [hp]
    simp only [List.map_cons, List.filter_cons]
    have hone : (!(stripChars (c :: p)).isEmpty) = true := by
      cases h : stripChars (c :: p) with
      | nil => exact absurd h (stripChars_cons_ne_nil c p hns)
      | cons a l => simp
    rw [hone]
    simp
  refine ⟨?_, hkeep⟩
  have hkeep2 : ((((splitCommaChars (c :: rest)).map stripChars).filter
      (fun q => !q.isEmpty)).map (fun p => String.mk (upperChars p))) ≠ [] := by
    simpa using hkeep
  simp only [_rule_ids]
  rw [if_neg (by simpa using hstrip)]
  simp only [List.isEmpty_eq_true]
  rw [if_neg hkeep2]

theorem lastDisable_none : ∀ (lines : List String),
    (∀ l ∈ lines, searchDisable l.data = none) → lastDisable lines = none := by
  intro lines
  induction lines with
  | nil => intro _; rfl
  | cons l rest ih =>
    intro h
    rw [lastDisable, ih (fun x hx => h x (List.mem_cons_of_mem l hx))]
    exact h l (List.mem_cons_self l rest)

theorem noqaRecords_none : ∀ (lines : List String) (n : Nat),
    (∀ l ∈ lines, searchNoqa l.data = none) → noqaRecords n lines = [] := by
  intro lines
  induction lines with
  | nil => intro n _; rfl
  | cons l rest ih =>
    intro n h
    rw [noqaRecords, h l (List.mem_cons_self l rest)]
    exact ih (n + 1) (fun x hx => h x (List.mem_cons_of_mem l hx))

/-! ## Claim theorems: suppression behaviour -/

/-- C4: a diagnostic whose line carries a bare noqa directive (no rule-id
list) is omitted from the analyze result; a diagnostic produced by the
rules whose line carries a noqa directive with a rule-id list in which no
listed id upper-cases to the diagnostic rule id stays present, provided no
file-disable directive appears in the source. -/
theorem noqa_suppression {Tree : Type} (rules : List (Tree → String → List Diagnostic))
    (parse : String → Except Unit Tree) (source : String) :
    (∀ d ∈ analyze rules parse source, ∀ lstr : String, 1 ≤ d.line →
        (splitlinesPy source)[d.line - 1]? = some lstr →
        searchNoqa lstr.data ≠ some none)
    ∧ (∀ (tree : Tree), parse source = .ok tree →
        ∀ d ∈ ((rules.map (fun check => check tree source)).flatten),
        1 ≤ d.line →
        ∀ (lstr : String) (cap : List Char),
        (splitlinesPy source)[d.line - 1]? = some lstr →
        searchNoqa lstr.data = some (some cap) →
        (∀ p ∈ (((splitCommaChars cap).map stripChars).filter (fun p => !p.isEmpty)),
            String.mk (upperChars p) ≠ d.rule_id) →
        (∀ l2 ∈ splitlinesPy source, searchDisable l2.data = none) →
        d ∈ analyze rules parse source) := by
  constructor
  · intro d hd lstr hline hget hnoqa
    unfold analyze at hd
    cases hp : parse source with
    | error e => rw [hp] at hd; exact absurd hd (by simp)
    | ok tree =>
      rw [hp] at hd
      unfold _apply_suppressions at hd
      have hs := List.of_mem_filter hd
      simp only [Bool.not_eq_true'] at hs
      have hlook : ((noqaRecords 1 (splitlinesPy source)).lookup d.line) = some none := by
        rw [lookup_noqaRecords, if_neg (by omega), hget]
        simp [hnoqa, _rule_ids]
      rw [scanSuppressions_eq] at hs
      simp [isSuppressed, hlook, _covers] at hs
  · intro tree hp d hd hline lstr cap hget hcap hids hnof
    unfold analyze
    rw [hp]
    unfold _apply_suppressions
    apply List.mem_filter.mpr
    refine ⟨List.mem_mergeSort.mpr hd, ?_⟩
    rw [scanSuppressions_eq]
    have hlast : lastDisable (splitlinesPy source) = none := lastDisable_none _ hnof
    obtain ⟨c, crest, hcc, hchead⟩ := searchDirective_capture _ _ _ hcap
    subst hcc
    obtain ⟨hrid, hne⟩ := rule_ids_of_capture c crest hchead
    have hlook : ((noqaRecords 1 (splitlinesPy source)).lookup d.line) =
        some (_rule_ids (some (c :: crest))) := by
      rw [lookup_noqaRecords, if_neg (by omega), hget]
      simp [hcap]
    simp only [isSuppressed, hlast, hlook, Option.isSome_none, Bool.false_and,
      Bool.false_or, Bool.not_eq_true']
    rw [hrid]
    simp only [_covers]
    rw [List.contains_eq_any_beq, Bool.eq_false_iff]
    intro hany
    rw [List.any_eq_true] at hany
    obtain ⟨x, hx, hxeq⟩ := hany
    rw [List.mem_map] at hx
    obtain ⟨p, hpmem, hpx⟩ := hx
    rw [beq_iff_eq] at hxeq
    exact hids p hpmem (by rw [hpx, hxeq])

theorem noqa_suppression_witness :
    mkDiag "IMP001" 1 0 ∈ analyze [fun (_ : Unit) (_ : String) => [mkDiag "IMP001" 1 0]]
        (fun _ => Except.ok ()) "import os  # sergey: noqa: ZZZ9" :=
  (noqa_suppression [fun (_ : Unit) (_ : String) => [mkDiag "IMP001" 1 0]]
      (fun _ => Except.ok ()) "import os  # sergey: noqa: ZZZ9").2 () rfl
      (mkDiag "IMP001" 1 0) (by decide) (by decide)
      "import os  # sergey: noqa: ZZZ9" ("ZZZ9".data) (by decide) (by decide)
      (by decide) (by decide)

theorem lastDisable_append (L1 L2 : List String) :
    lastDisable (L1 ++ L2) =
      match lastDisable L2 with
      | some cap => some cap
      | none => lastDisable L1 := by
  induction L1 with
  | nil => cases h : lastDisable L2 <;> simp [lastDisable, h]
  | cons l rest ih =>
    rw [List.cons_append, lastDisable, ih, lastDisable]
    cases h : lastDisable L2 <;> cases h2 : lastDisable rest <;> simp [h, h2]

/-- C9: a file-disable directive suppresses the same diagnostics whether
it stands on the first or on the last line of an otherwise identical
file: with the remaining lines free of directives, _apply_suppressions
gives identical results for the directive-first and directive-last
sources, on any diagnostics list. -/
theorem disable_file_position_independence
    (diags : List Diagnostic) (L : List String) (d : String) (src1 src2 : String)
    (h1 : splitlinesPy src1 = d :: L)
    (h2 : splitlinesPy src2 = L ++ [d])
    (hdir : searchDisable d.data ≠ none)
    (hdn : searchNoqa d.data = none)
    (hL : ∀ l ∈ L, searchDisable l.data = none ∧ searchNoqa l.data = none) :
    _apply_suppressions diags src1 = _apply_suppressions diags src2 := by
  have hLd : lastDisable L = none := lastDisable_none L (fun l hl => (hL l hl).1)
  have hfile : lastDisable (d :: L) = lastDisable (L ++ [d]) := by
    rw [lastDisable, hLd, lastDisable_append]
    cases hc : searchDisable d.data with
    | some cap => simp [lastDisable, hc]
    | none => exact absurd hc hdir
  have hnr1 : noqaRecords 1 (d :: L) = [] := by
    apply noqaRecords_none
    intro l hl
    rcases List.mem_cons.mp hl with h | h
    · subst h; exact hdn
    · exact (hL l h).2
  have hnr2 : noqaRecords 1 (L ++ [d]) = [] := by
    apply noqaRecords_none
    intro l hl
    rcases List.mem_append.mp hl with h | h
    · exact (hL l h).2
    · rcases List.mem_singleton.mp h with rfl
      exact hdn
  unfold _apply_suppressions
  rw [h1, h2, scanSuppressions_eq, scanSuppressions_eq, hfile, hnr1, hnr2]

theorem disable_file_position_independence_witness :
    _apply_suppressions [mkDiag "IMP001" 2 0] "# sergey: disable-file\nimport os" =
      _apply_suppressions [mkDiag "IMP001" 2 0] "import os\n# sergey: disable-file" :=
  disable_file_position_independence [mkDiag "IMP001" 2 0] ["import os"]
    "# sergey: disable-file" "# sergey: disable-file\nimport os"
    "import os\n# sergey: disable-file" (by decide) (by decide) (by decide)
    (by decide) (by decide)

/-- C10: when several file-disable directives occur, the scan keeps only
the rule-id set of the last occurrence (each later match overwrites the
earlier record; the sets are not unioned), and a diagnostic whose rule id
is not covered by that last set survives _apply_suppressions whatever the
earlier directives listed, provided no line-scoped directives occur. -/
theorem disable_file_last_occurrence_wins
    (L1 L2 : List String) (dlast : String) (cap : Option (List Char))
    (hd : searchDisable dlast.data = some cap)
    (hL2 : ∀ l ∈ L2, searchDisable l.data = none) :
    (scanSuppressions (L1 ++ dlast :: L2)).file_sup_rules = _rule_ids cap
    ∧ (scanSuppressions (L1 ++ dlast :: L2)).file_sup_active = true
    ∧ ∀ (diags : List Diagnostic) (src : String) (diag : Diagnostic),
        splitlinesPy src = L1 ++ dlast :: L2 →
        (∀ l ∈ L1 ++ dlast :: L2, searchNoqa l.data = none) →
        diag ∈ diags →
        _covers (_rule_ids cap) diag.rule_id = false →
        diag ∈ _apply_suppressions diags src := by
  have hlastd : lastDisable (L1 ++ dlast :: L2) = some cap := by
    rw [lastDisable_append, lastDisable, lastDisable_none L2 hL2, hd]
  refine ⟨?_, ?_, ?_⟩
  · rw [scanSuppressions_eq, hlastd]
  · rw [scanSuppressions_eq, hlastd]
    rfl
  · intro diags src diag hsplit hnoqa hmem hcov
    unfold _apply_suppressions
    apply List.mem_filter.mpr
    refine ⟨hmem, ?_⟩
    rw [hsplit, scanSuppressions_eq, hlastd, noqaRecords_none _ _ hnoqa]
    simp [isSuppressed, hcov]

theorem disable_file_last_occurrence_wins_witness :
    mkDiag "AAA1" 3 0 ∈
      _apply_suppressions [mkDiag "AAA1" 3 0]
        "# sergey: disable-file: AAA1\n# sergey: disable-file: BBB2\nimport os" :=
  (disable_file_last_occurrence_wins ["# sergey: disable-file: AAA1"] ["import os"]
      "# sergey: disable-file: BBB2" (some "BBB2".data) (by decide) (by decide)).2.2
    [mkDiag "AAA1" 3 0]
    "# sergey: disable-file: AAA1\n# sergey: disable-file: BBB2\nimport os"
    (mkDiag "AAA1" 3 0) (by decide) (by decide) (by decide) (by decide)

/-! ## The fix applier (sergey/__main__.py, _apply_fixes)

Fixes are applied from bottom to top; the collected edits are the
diagnostic spans with their Fix replacement plus every additional edit,
deduplicated by exact span, first occurrence kept. -/

/-- The descending (line, col) ordering used for the bottom-to-top pass:
Python sorted with key (e[0], e[1]) and reverse=True, which is the stable
sort under this comparison. -/
def editDescLE (a b : Edit) : Bool :=
  b.line < a.line || (b.line == a.line && b.col ≤ a.col)

/-- One collection step of _apply_fixes: add the span/replacement of the
diagnostic and of its additional edits to the accumulator, skipping spans
already seen. -/
def collectStep (acc : List (Nat × Nat × Nat × Nat) × List Edit) (diag : Diagnostic) :
    List (Nat × Nat × Nat × Nat) × List Edit :=
  match diag.fix with
  | none => acc
  | some fx =>
    let key := (diag.line, diag.col, diag.end_line, diag.end_col)
    let acc1 := if key ∈ acc.1 then acc
      else (acc.1 ++ [key],
            acc.2 ++ [⟨diag.line, diag.col, diag.end_line, diag.end_col, fx.replacement⟩])
    fx.additional_edits.foldl
      (fun acc2 e =>
        if (e.line, e.col, e.end_line, e.end_col) ∈ acc2.1 then acc2
        else (acc2.1 ++ [(e.line, e.col, e.end_line, e.end_col)], acc2.2 ++ [e]))
      acc1

/-- The unique-edit collection loop of _apply_fixes. -/
def collectEdits (diagnostics : List Diagnostic) : List Edit :=
  (diagnostics.foldl collectStep ([], [])).2

/-- One application step of _apply_fixes: recompute the keepends line
split of the current text, turn (line, col) positions into absolute
offsets by summing the lengths of the preceding lines, and splice. -/
def spliceEdit (source : String) (e : Edit) : String :=
  let lines := splitlinesKeepChars source.data
  let start := (((lines.take (e.line - 1)).map List.length).sum) + e.col
  let stop := (((lines.take (e.end_line - 1)).map List.length).sum) + e.end_col
  String.mk (source.data.take start ++ e.replacement.data ++ source.data.drop stop)

/-- _apply_fixes: apply all fixable diagnostics to the source, bottom to
top. -/
def _apply_fixes (source : String) (diagnostics : List Diagnostic) : String :=
  ((collectEdits diagnostics).mergeSort editDescLE).foldl spliceEdit source

theorem mergeSort_pair {α : Type} (le : α → α → Bool) (a b : α) :
    List.mergeSort [a, b] le = if le a b then [a, b] else [b, a] := by
  rw [List.mergeSort]
  simp [List.merge]

/-- C2: for two fixable diagnostics at distinct (line, col) positions and
no additional edits, the bottom-to-top pass equals applying the
later-positioned fix alone to the source and then applying the
earlier-positioned fix to that intermediate result. -/
theorem apply_fixes_bottom_up (source : String) (d1 d2 : Diagnostic) (f1 f2 : Fix)
    (h1 : d1.fix = some f1) (h2 : d2.fix = some f2)
    (ha1 : f1.additional_edits = []) (ha2 : f2.additional_edits = [])
    (hlt : d1.line < d2.line ∨ (d1.line = d2.line ∧ d1.col < d2.col)) :
    _apply_fixes source [d1, d2] = _apply_fixes (_apply_fixes source [d2]) [d1] := by
  have hkey : ((d2.line, d2.col, d2.end_line, d2.end_col) : Nat × Nat × Nat × Nat) ≠
      (d1.line, d1.col, d1.end_line, d1.end_col) := by
    intro h
    simp only [Prod.mk.injEq] at h
    rcases hlt with h' | ⟨he, h'⟩ <;> omega
  have hstep : ∀ (acc : List (Nat × Nat × Nat × Nat) × List Edit) (diag : Diagnostic)
      (f : Fix), diag.fix = some f → f.additional_edits = [] →
      collectStep acc diag =
        if (diag.line, diag.col, diag.end_line, diag.end_col) ∈ acc.1 then acc
        else (acc.1 ++ [(diag.line, diag.col, diag.end_line, diag.end_col)],
              acc.2 ++ [⟨diag.line, diag.col, diag.end_line, diag.end_col, f.replacement⟩]) := by
    intro acc diag f hf hadd
    unfold collectStep
    rw [hf]
    simp only [hadd, List.foldl_nil]
  have hc2 : collectEdits [d1, d2] =
      [⟨d1.line, d1.col, d1.end_line, d1.end_col, f1.replacement⟩,
       ⟨d2.line, d2.col, d2.end_line, d2.end_col, f2.replacement⟩] := by
    unfold collectEdits
    rw [List.foldl_cons, List.foldl_cons, List.foldl_nil,
      hstep ([], []) d1 f1 h1 ha1]
    rw [if_neg (by simp)]
    rw [hstep _ d2 f2 h2 ha2]
    rw [if_neg (by simpa using hkey)]
    simp
  have hc1 : collectEdits [d2] =
      [⟨d2.line, d2.col, d2.end_line, d2.end_col, f2.replacement⟩] := by
    unfold collectEdits
    rw [List.foldl_cons, List.foldl_nil, hstep ([], []) d2 f2 h2 ha2]
    rw [if_neg (by simp)]
    simp
  have hc0 : collectEdits [d1] =
      [⟨d1.line, d1.col, d1.end_line, d1.end_col, f1.replacement⟩] := by
    unfold collectEdits
    rw [List.foldl_cons, List.foldl_nil, hstep ([], []) d1 f1 h1 ha1]
    rw [if_neg (by simp)]
    simp
  have hle : editDescLE ⟨d1.line, d1.col, d1.end_line, d1.end_col, f1.replacement⟩
      ⟨d2.line, d2.col, d2.end_line, d2.end_col, f2.replacement⟩ = false := by
    simp only [editDescLE, Bool.or_eq_false_iff, Bool.and_eq_false_iff]
    rcases hlt with h' | ⟨he, h'⟩
    · constructor
      · simp only [decide_eq_false_iff_not]
        omega
      · left
        simp only [beq_eq_false_iff_ne, ne_eq]
        omega
    · constructor
      · simp only [decide_eq_false_iff_not]
        omega
      · right
        simp only [decide_eq_false_iff_not]
        omega
  unfold _apply_fixes
  rw [hc2, hc1, hc0, mergeSort_pair, hle, List.mergeSort_singleton,
    List.mergeSort_singleton]
  simp

/-- A fixable diagnostic value used to instantiate theorems at concrete
inputs. -/
def fixDiag (id : String) (line col el ec : Nat) (rep : String) : Diagnostic :=
  ⟨id, "msg", line, col, el, ec, Severity.WARNING, some ⟨rep, []⟩⟩

theorem apply_fixes_bottom_up_witness :
    _apply_fixes "import typing\nimport os.path\n"
        [fixDiag "IMP002" 1 0 1 13 "from typing import Any",
         fixDiag "IMP003" 2 0 2 14 "from os import path"] =
      _apply_fixes
        (_apply_fixes "import typing\nimport os.path\n"
          [fixDiag "IMP003" 2 0 2 14 "from os import path"])
        [fixDiag "IMP002" 1 0 1 13 "from typing import Any"] :=
  apply_fixes_bottom_up "import typing\nimport os.path\n"
    (fixDiag "IMP002" 1 0 1 13 "from typing import Any")
    (fixDiag "IMP003" 2 0 2 14 "from os import path")
    ⟨"from typing import Any", []⟩ ⟨"from os import path", []⟩
    rfl rfl rfl rfl (Or.inl (by decide))

/-! ## Configuration (sergey/config.py)

load_config reads [tool.sergey] from the nearest pyproject.toml.  The
file system and the TOML parser are external: the walk result and the
read/parse outcome are oracle parameters.  The parsed document is a
Python object tree; the dynamic operations performed on it (.get on a
presumed dict, iteration, .upper, .items) raise on ill-typed values, so
each is embedded with an Except result. -/

/-- A scalar option value: the int, string and bool values kept by the
rule_options filter. -/
inductive Scalar where
  | int (i : Int)
  | str (s : String)
  | bool (b : Bool)
deriving DecidableEq, Repr

/-- A parsed TOML value as produced by the parser boundary.  The float
payload is irrelevant to the configuration (floats are never kept). -/
inductive Toml where
  | str (s : String)
  | int (i : Int)
  | bool (b : Bool)
  | float
  | arr (xs : List Toml)
  | table (kvs : List (String × Toml))
deriving Repr

/-- Resolved sergey configuration, from config.Config.  The frozensets
and dicts are represented by lists; only membership and lookup are used
downstream. -/
structure Config where
  select : Option (List String)
  ignore : List String
  rule_options : List (String × List (String × Scalar)) := []
deriving DecidableEq, Repr

/-- Python value.get(key, default): succeeds on a dict, raises
AttributeError otherwise. -/
def tomlGet (t : Toml) (key : String) (default : Toml) : Except Unit Toml :=
  match t with
  | .table kvs => .ok ((kvs.lookup key).getD default)
  | _ => .error ()

/-- Python value.get(key): succeeds on a dict with None for a missing
key, raises AttributeError otherwise. -/
def tomlGetOpt (t : Toml) (key : String) : Except Unit (Option Toml) :=
  match t with
  | .table kvs => .ok (kvs.lookup key)
  | _ => .error ()

/-- Python iteration over a value: a list yields its items, a string its
characters as one-character strings, a dict its keys; other values raise
TypeError. -/
def tomlIter (t : Toml) : Except Unit (List Toml) :=
  match t with
  | .arr xs => .ok xs
  | .str s => .ok (s.data.map (fun c => .str (String.mk [c])))
  | .table kvs => .ok (kvs.map (fun kv => .str kv.1))
  | _ => .error ()

/-- Python value.upper(): succeeds on a string, raises AttributeError
otherwise. -/
def tomlUpper (t : Toml) : Except Unit String :=
  match t with
  | .str s => .ok s.toUpper
  | _ => .error ()

/-- The rule_options dict comprehension of load_config: iterate
rules_raw.items() (raising unless rules_raw is a dict), keep dict-valued
entries with the key uppercased, and inside each keep only int, str and
bool option values. -/
def tomlRuleOptions (t : Toml) : Except Unit (List (String × List (String × Scalar))) :=
  match t with
  | .table kvs => .ok (kvs.filterMap (fun kv =>
      match kv.2 with
      | .table os => some (kv.1.toUpper, os.filterMap (fun ov =>
          match ov.2 with
          | .int i => some (ov.1, Scalar.int i)
          | .str s => some (ov.1, Scalar.str s)
          | .bool b => some (ov.1, Scalar.bool b)
          | _ => none))
      | _ => none))
  | _ => .error ()

/-- load_config: returns the Config from the nearest pyproject.toml, or
defaults.  findPyproject is the _find_pyproject walk outcome; readToml is
the open-and-tomllib.load outcome (its error covers OSError and
TOMLDecodeError, the two caught exception types); the TOML document root
is always a dict. -/
def load_config (findPyproject : Bool) (readToml : Except Unit (List (String × Toml))) :
    Except Unit Config :=
  if !findPyproject then .ok ⟨none, [], []⟩
  else
    match readToml with
    | .error _ => .ok ⟨none, [], []⟩
    | .ok data => do
      let tool := (data.lookup "tool").getD (.table [])
      let sectionV ← tomlGet tool "sergey" (.table [])
      let selectRaw ← tomlGetOpt sectionV "select"
      let ignoreRaw ← tomlGet sectionV "ignore" (.arr [])
      let rulesRaw ← tomlGet sectionV "rules" (.table [])
      let select ← match selectRaw with
        | none => pure none
        | some sr => do
          let items ← tomlIter sr
          let ids ← items.mapM tomlUpper
          pure (some ids)
      let ignoreItems ← tomlIter ignoreRaw
      let ignore ← ignoreItems.mapM tomlUpper
      let rule_options ← tomlRuleOptions rulesRaw
      pure ⟨select, ignore, rule_options⟩

/-- filter_rules: the subset of all_rules allowed by config, select
applied first, then ignore, order preserved.  A rule value is anything
with a type name, so the rule type and its name function are
parameters. -/
def filter_rules {R : Type} (name : R → String) (all_rules : List R) (config : Config) :
    List R :=
  let active := match config.select with
    | some sel => all_rules.filter (fun r => sel.contains (name r))
    | none => all_rules
  if config.ignore.isEmpty then active
  else active.filter (fun r => !(config.ignore.contains (name r)))

/-- configure_rules: rules with per-rule options from config applied.  A
rule value is anything with a type name and a configure operation, so
both are parameters; the options of a rule are looked up by name with {}
as default, and configure is called only on a truthy (non-empty)
options dict. -/
def configure_rules {R : Type} (name : R → String)
    (conf : R → List (String × Scalar) → R)
    (active_rules : List R) (config : Config) : List R :=
  active_rules.map (fun rule =>
    let opts := (config.rule_options.lookup (name rule)).getD []
    if opts.isEmpty then rule else conf rule opts)

/-- The STR003 rule state and its configure operation, from
structure.STR003: a new instance is returned with the max_body_stmts
option when that option is an int (a Python bool passes the isinstance
int check and is used as 0 or 1), otherwise self is returned. -/
structure STR003 where
  max_body_stmts : Int
deriving DecidableEq, Repr

def STR003.configure (r : STR003) (options : List (String × Scalar)) : STR003 :=
  match (options.lookup "max_body_stmts").getD (Scalar.int r.max_body_stmts) with
  | .int i => ⟨i⟩
  | .bool b => ⟨if b then 1 else 0⟩
  | _ => r

/-- With an empty options dict the repository rule STR003 reconfigures to
an equal value, so the empty-entry divergence of configure_rules is not
observable at value level on the rules the repository ships. -/
theorem str003_configure_empty (r : STR003) : r.configure [] = r := by
  simp [STR003.configure]

/-! ## Claim theorems: configuration -/

/-- C6 counterexample: a directory whose pyproject.toml parses as TOML
but holds an ill-typed value at the tool key makes load_config raise (an
uncaught AttributeError in the embedding), refuting that load_config
never raises for every start directory. -/
theorem load_config_raises_counterexample :
    load_config true (.ok [("tool", Toml.int 5)]) = .error () := rfl

/-- C6 amended: load_config never raises when no configuration file is
found or when reading or parsing the file fails, and in those cases it
returns the default Config (select none, ignore empty, rule_options
empty); a file that parses but carries ill-typed content can still
raise. -/
theorem load_config_failure_defaults :
    (∀ r : Except Unit (List (String × Toml)), load_config false r = .ok ⟨none, [], []⟩)
    ∧ load_config true (.error ()) = .ok ⟨none, [], []⟩ := by
  constructor
  · intro r
    rfl
  · rfl

/-- C7: filter_rules applies select first and ignore second, preserving
the order of all_rules; for any catalog containing the distinct
identities a, b and c, select {a, b} with ignore {a} keeps exactly the
rules with identity b, and keeps at least one. -/
theorem filter_rules_select_then_ignore {R : Type} (name : R → String)
    (catalog : List R) (a b c : String)
    (hab : a ≠ b) (hbc : b ≠ c) (hac : a ≠ c)
    (hbmem : b ∈ catalog.map name) :
    filter_rules name catalog ⟨some [a, b], [a], []⟩ =
      catalog.filter (fun r => name r == b)
    ∧ List.Sublist (filter_rules name catalog ⟨some [a, b], [a], []⟩) catalog
    ∧ filter_rules name catalog ⟨some [a, b], [a], []⟩ ≠ [] := by
  have heq : filter_rules name catalog ⟨some [a, b], [a], []⟩ =
      catalog.filter (fun r => name r == b) := by
    unfold filter_rules
    simp only [List.isEmpty_eq_true]
    rw [if_neg (by simp)]
    rw [List.filter_filter]
    apply List.filter_congr
    intro r _
    by_cases hra : name r = a
    · simp [hra, hab]
    · by_cases hrb : name r = b
      · simp [hrb, hab.symm]
      · simp [hra, hrb]
  refine ⟨heq, ?_, ?_⟩
  · rw [heq]
    exact List.filter_sublist catalog
  · rw [heq]
    obtain ⟨r, hr, hname⟩ := List.mem_map.mp hbmem
    intro hnil
    have : r ∈ catalog.filter (fun r => name r == b) :=
      List.mem_filter.mpr ⟨hr, by simp [hname]⟩
    rw [hnil] at this
    exact absurd this (List.not_mem_nil r)

theorem filter_rules_select_then_ignore_witness :
    filter_rules (fun s : String => s) ["A", "B", "C"] ⟨some ["A", "B"], ["A"], []⟩ =
      (["A", "B", "C"].filter (fun r => r == "B"))
    ∧ List.Sublist (filter_rules (fun s : String => s) ["A", "B", "C"]
        ⟨some ["A", "B"], ["A"], []⟩) ["A", "B", "C"]
    ∧ filter_rules (fun s : String => s) ["A", "B", "C"] ⟨some ["A", "B"], ["A"], []⟩ ≠ [] :=
  filter_rules_select_then_ignore (fun s : String => s) ["A", "B", "C"] "A" "B" "C"
    (by decide) (by decide) (by decide) (by decide)

/-- C8 counterexample: a rule whose identity has an entry in
rule_options is not replaced by configure when that entry is the empty
dict (Python evaluates an empty options dict as falsy and skips
configure), so the claim as stated fails on a rule whose configure
changes it even for empty options. -/
theorem configure_rules_empty_entry_counterexample :
    configure_rules (fun (_ : Nat) => "STR003") (fun n _ => n + 1) [0]
        ⟨none, [], [("STR003", [])]⟩ ≠
      [(fun (n : Nat) (_ : List (String × Scalar)) => n + 1) 0 []] := by
  decide

/-- C8 amended: configure_rules maps each rule whose identity has a
non-empty entry in config.rule_options to rule.configure(options), keeps
every rule with no entry or with an empty options entry unchanged, and
preserves length and order; rules are values, never mutated. -/
theorem configure_rules_spec {R : Type} (name : R → String)
    (conf : R → List (String × Scalar) → R)
    (active : List R) (config : Config) :
    ∀ i : Nat, (configure_rules name conf active config)[i]? =
      (active[i]?).map (fun rule =>
        match config.rule_options.lookup (name rule) with
        | some opts => if opts = [] then rule else conf rule opts
        | none => rule) := by
  intro i
  simp only [configure_rules, List.getElem?_map]
  cases h : active[i]? with
  | none => rfl
  | some r =>
    simp only [Option.map_some']
    cases hl : config.rule_options.lookup (name r) with
    | none => simp [hl]
    | some opts =>
      cases opts with
      | nil => simp [hl]
      | cons o os => simp [hl]

/-! ## The rule checkers cited for failure isolation
(sergey/rules/imports.py IMP001, sergey/rules/structure.py STR002)

The parsed tree is the parser-boundary object; the node kinds that the
two checkers distinguish are modelled below, every other node falling
into a generic constructor with children.  ast.walk is breadth first.
The fallible ingredients are explicit: importlib.util.find_spec (an
external call that can raise, guarded by the try/except inside
_is_submodule) is an oracle with an Except result, and the recursion of
the STR002 traversal carries a fuel bound whose exhaustion models
RecursionError, the exception the blanket try/except in STR002.check
guards against; the raised error carries the diagnostics list mutated so
far, as the Python list object survives the exception. -/

/-- An ast.alias: imported name with optional asname. -/
structure PyAlias where
  name : String
  asname : Option String
deriving DecidableEq, Repr

/-- Source location attributes common to ast statement nodes. -/
structure Loc where
  lineno : Nat
  col_offset : Nat
  end_lineno : Option Nat
  end_col_offset : Option Nat
deriving DecidableEq, Repr

/-- The AST node shapes distinguished by IMP001, STR002 and DOC001:
ImportFrom and Import; FunctionDef and AsyncFunctionDef with their name
and statement body (argument, decorator and annotation children are
dropped); the remaining scope-resetting defs (ClassDef, Lambda); If with
its test, body and orelse; the other nesting statements (For, AsyncFor,
While, With, AsyncWith, Try, TryStar, Match); Raise with whether an
exception operand is present (the operand subtree is dropped); an Expr
statement whose value is a Constant, carrying the string when the
constant is a str (the docstring position); and every remaining node
kind with its children (the alias children of the import nodes carry no
further structure and are dropped). -/
inductive PyNode where
  | importFrom (loc : Loc) (module : Option String) (names : List PyAlias) (level : Nat)
  | importStmt (loc : Loc) (names : List PyAlias)
  | funcDef (loc : Loc) (name : String) (body : List PyNode)
  | scopeDef (loc : Loc) (children : List PyNode)
  | ifStmt (loc : Loc) (test : PyNode) (body : List PyNode) (orelse : List PyNode)
  | nesting (loc : Loc) (children : List PyNode)
  | raiseStmt (loc : Loc) (excPresent : Bool)
  | docExpr (loc : Loc) (strValue : Option String)
  | other (loc : Loc) (children : List PyNode)
deriving Repr

/-- An ast.Module: its statement list. -/
structure PyModule where
  body : List PyNode
deriving Repr

/-- ast.iter_child_nodes, in field order. -/
def childNodes : PyNode → List PyNode
  | .importFrom _ _ _ _ => []
  | .importStmt _ _ => []
  | .funcDef _ _ body => body
  | .scopeDef _ ch => ch
  | .ifStmt _ t b o => t :: (b ++ o)
  | .nesting _ ch => ch
  | .raiseStmt _ _ => []
  | .docExpr _ _ => []
  | .other _ ch => ch

mutual
/-- Node weight used to justify the breadth-first traversal. -/
def sizeNode : PyNode → Nat
  | .importFrom _ _ _ _ => 1
  | .importStmt _ _ => 1
  | .funcDef _ _ body => 1 + sizeNodes body
  | .scopeDef _ ch => 1 + sizeNodes ch
  | .ifStmt _ t b o => 1 + sizeNode t + sizeNodes b + sizeNodes o
  | .nesting _ ch => 1 + sizeNodes ch
  | .raiseStmt _ _ => 1
  | .docExpr _ _ => 1
  | .other _ ch => 1 + sizeNodes ch

def sizeNodes : List PyNode → Nat
  | [] => 0
  | n :: rest => sizeNode n + sizeNodes rest
end

theorem sizeNodes_append (a b : List PyNode) :
    sizeNodes (a ++ b) = sizeNodes a + sizeNodes b := by
  induction a with
  | nil => simp [sizeNodes]
  | cons n rest ih => rw [List.cons_append, sizeNodes, sizeNodes, ih]; omega

theorem sizeNodes_childNodes (n : PyNode) : sizeNodes (childNodes n) < sizeNode n := by
  cases n with
  | importFrom loc m ns l => simp [childNodes, sizeNode, sizeNodes]
  | importStmt loc ns => simp [childNodes, sizeNode, sizeNodes]
  | funcDef loc nm body => simp [childNodes, sizeNode]
  | scopeDef loc ch => simp [childNodes, sizeNode]
  | ifStmt loc t b o =>
    rw [childNodes, sizeNode, sizeNodes, sizeNodes_append]
    omega
  | nesting loc ch => simp [childNodes, sizeNode]
  | raiseStmt loc e => simp [childNodes, sizeNode, sizeNodes]
  | docExpr loc s => simp [childNodes, sizeNode, sizeNodes]
  | other loc ch => simp [childNodes, sizeNode]

theorem sizeNode_pos (n : PyNode) : 1 ≤ sizeNode n := by
  cases n <;> simp [sizeNode] <;> omega

/-- ast.walk: breadth-first traversal through a work queue; each popped
node is yielded and its children appended.  The while loop runs exactly
once per node of the forest, so its iteration count is the total node
weight, which the caller passes as the budget. -/
def walkAux : Nat → List PyNode → List PyNode
  | 0, _ => []
  | _ + 1, [] => []
  | fuel + 1, n :: queue => n :: walkAux fuel (queue ++ childNodes n)

/-- ast.walk from a Module: the Module node itself is yielded first but
matches no import pattern, so the checkers see exactly the nodes below
it. -/
def walk (m : PyModule) : List PyNode :=
  walkAux (sizeNodes m.body) m.body

/-- Any sufficient budget yields the same traversal, so the node-count
budget in walk is canonical, not a truncation. -/
theorem walkAux_budget (fuel1 : Nat) : ∀ (fuel2 : Nat) (queue : List PyNode),
    sizeNodes queue ≤ fuel1 → sizeNodes queue ≤ fuel2 →
    walkAux fuel1 queue = walkAux fuel2 queue := by
  induction fuel1 with
  | zero =>
    intro fuel2 queue h1 h2
    cases queue with
    | nil => cases fuel2 <;> rfl
    | cons n q =>
      rw [sizeNodes] at h1
      have := sizeNode_pos n
      omega
  | succ f1 ih =>
    intro fuel2 queue h1 h2
    cases queue with
    | nil => cases fuel2 <;> rfl
    | cons n q =>
      rw [sizeNodes] at h1 h2
      have hpos := sizeNode_pos n
      cases fuel2 with
      | zero => omega
      | succ f2 =>
        rw [walkAux, walkAux]
        congr 1
        apply ih
        · rw [sizeNodes_append]
          have := sizeNodes_childNodes n
          omega
        · rw [sizeNodes_append]
          have := sizeNodes_childNodes n
          omega

/-! ### IMP001 (imports.py) -/

/-- Modules excluded from IMP001. -/
def _IMP001_EXCLUDED : List String :=
  ["__future__", "typing", "typing_extensions", "collections.abc"]

/-- _is_submodule: true when parent.name resolves to an importable
module.  find_spec is an external call that may raise; the try/except
maps any exception to False. -/
def _is_submodule (findSpec : String → Except Unit Bool) (parent name : String) : Bool :=
  match findSpec (parent ++ "." ++ name) with
  | .ok b => b
  | .error _ => false

/-- str.rpartition(".") restricted to its use site: the part before the
last dot and the part after it. -/
def rpartitionDot (s : String) : String × String :=
  let rev := s.data.reverse
  let name := (rev.takeWhile (fun c => c ≠ '.')).reverse
  let parent := ((rev.dropWhile (fun c => c ≠ '.')).drop 1).reverse
  (String.mk parent, String.mk name)

/-- The alias display used in import fix replacements: name, optionally
with as asname. -/
def aliasText (a : PyAlias) : String :=
  match a.asname with
  | some an => s!"{a.name} as {an}"
  | none => a.name

/-- _imp001_fix: replacement converting a non-module from-import into a
module import, keeping the unflagged submodule aliases in a separate
from-import; None when no unambiguous fix exists.  The source keeps the
good aliases by object identity of the flagged ones; the flagged list
is the subsequence of names failing the submodule test, so value
membership selects the same aliases. -/
def _imp001_fix (loc : Loc) (module : Option String) (names : List PyAlias) (level : Nat)
    (bad_aliases : List PyAlias) : Option Fix :=
  let indent := String.mk (List.replicate loc.col_offset ' ')
  let moduleStr := module.getD ""
  let dots := String.mk (List.replicate level '.')
  let good_aliases := names.filter (fun a => !(bad_aliases.contains a))
  let parts0 : List String :=
    if good_aliases.isEmpty then []
    else
      let names_str := String.intercalate ", " (good_aliases.map aliasText)
      [s!"from {dots}{moduleStr} import {names_str}"]
  if level == 0 then
    if moduleStr.isEmpty then none
    else some ⟨String.intercalate ("\n" ++ indent) (parts0 ++ [s!"import {moduleStr}"]), []⟩
  else
    if moduleStr.isEmpty then none
    else if moduleStr.data.contains '.' then
      let pn := rpartitionDot moduleStr
      some ⟨String.intercalate ("\n" ++ indent)
        (parts0 ++ [s!"from {dots}{pn.1} import {pn.2}"]), []⟩
    else
      some ⟨String.intercalate ("\n" ++ indent)
        (parts0 ++ [s!"from {dots} import {moduleStr}"]), []⟩

/-- The loop body of IMP001.check over the walked nodes, in the
exception monad: the only fallible ingredient, find_spec, is already
confined by the catch inside _is_submodule. -/
def IMP001go (findSpec : String → Except Unit Bool) :
    List PyNode → List Diagnostic → Except Unit (List Diagnostic)
  | [], acc => .ok acc
  | node :: rest, acc =>
    match node with
    | .importFrom loc module names level =>
      let moduleStr := module.getD ""
      if moduleStr ∈ _IMP001_EXCLUDED then IMP001go findSpec rest acc
      else
        let bad_aliases :=
          if level == 0 && !moduleStr.isEmpty then
            names.filter (fun a => !(_is_submodule findSpec moduleStr a.name))
          else names
        if bad_aliases.isEmpty then IMP001go findSpec rest acc
        else
          let names_str := String.intercalate ", " (bad_aliases.map (fun a => a.name))
          let dots := String.mk (List.replicate level '.')
          let module_display := if !moduleStr.isEmpty then s!"{dots}{moduleStr}" else dots
          IMP001go findSpec rest (acc ++
            [⟨"IMP001",
              s!"Import the module directly instead of importing `{names_str}` from `{module_display}`",
              loc.lineno, loc.col_offset,
              loc.end_lineno.getD loc.lineno, loc.end_col_offset.getD loc.col_offset,
              Severity.WARNING,
              _imp001_fix loc module names level bad_aliases⟩])
    | _ => IMP001go findSpec rest acc

/-- IMP001.check: a diagnostic for every non-typing from-import of a
non-module name. -/
def IMP001check (findSpec : String → Except Unit Bool) (tree : PyModule)
    (source : String) : Except Unit (List Diagnostic) :=
  IMP001go findSpec (walk tree) []

/-! ### STR002 (structure.py) -/

def _MAX_DEPTH : Nat := 4

/-- _make_diagnostic for STR002. -/
def mkStr002Diag (loc : Loc) (depth : Nat) : Diagnostic :=
  ⟨"STR002",
    s!"Nesting depth {depth} exceeds the maximum of {_MAX_DEPTH}; extract logic to reduce nesting",
    loc.lineno, loc.col_offset,
    loc.end_lineno.getD loc.lineno, loc.end_col_offset.getD loc.col_offset,
    Severity.WARNING, none⟩

mutual
/-- _dispatch: route one node, tracking control-flow nesting depth.
Fuel exhaustion raises, carrying the diagnostics accumulated so far. -/
def _dispatch (fuel : Nat) (node : PyNode) (depth : Nat) (diagnostics : List Diagnostic) :
    Except (List Diagnostic) (List Diagnostic) :=
  match fuel with
  | 0 => .error diagnostics
  | fuel + 1 =>
    match node with
    | .funcDef _ _ body => dispatchList fuel body 0 diagnostics
    | .scopeDef _ children => dispatchList fuel children 0 diagnostics
    | .ifStmt loc test body orelse => _enter_if fuel loc test body orelse depth false diagnostics
    | .nesting loc children => _enter fuel loc children depth diagnostics
    | .importFrom _ _ _ _ => .ok diagnostics
    | .importStmt _ _ => .ok diagnostics
    | .raiseStmt _ _ => .ok diagnostics
    | .docExpr _ _ => .ok diagnostics
    | .other _ children => dispatchList fuel children depth diagnostics
termination_by structural fuel

/-- The iteration of _dispatch over child node sequences. -/
def dispatchList (fuel : Nat) (nodes : List PyNode) (depth : Nat)
    (diagnostics : List Diagnostic) : Except (List Diagnostic) (List Diagnostic) :=
  match fuel with
  | 0 => .error diagnostics
  | fuel + 1 =>
    match nodes with
    | [] => .ok diagnostics
    | n :: rest =>
      match _dispatch fuel n depth diagnostics with
      | .ok d2 => dispatchList fuel rest depth d2
      | .error d2 => .error d2
termination_by structural fuel

/-- _enter: enter a nesting construct, incrementing depth and emitting
over the limit. -/
def _enter (fuel : Nat) (loc : Loc) (children : List PyNode) (depth : Nat)
    (diagnostics : List Diagnostic) : Except (List Diagnostic) (List Diagnostic) :=
  match fuel with
  | 0 => .error diagnostics
  | fuel + 1 =>
    let new_depth := depth + 1
    let d1 := if new_depth > _MAX_DEPTH && depth == _MAX_DEPTH then
        diagnostics ++ [mkStr002Diag loc new_depth]
      else diagnostics
    dispatchList fuel children new_depth d1
termination_by structural fuel

/-- _enter_if: enter an If node, elif branches re-entered at the parent
depth with only the leading if emitting. -/
def _enter_if (fuel : Nat) (loc : Loc) (test : PyNode) (body orelse : List PyNode)
    (depth : Nat) (is_elif : Bool) (diagnostics : List Diagnostic) :
    Except (List Diagnostic) (List Diagnostic) :=
  match fuel with
  | 0 => .error diagnostics
  | fuel + 1 =>
    let new_depth := depth + 1
    let d1 := if !is_elif && new_depth > _MAX_DEPTH && depth == _MAX_DEPTH then
        diagnostics ++ [mkStr002Diag loc new_depth]
      else diagnostics
    match _dispatch fuel test new_depth d1 with
    | .error d => .error d
    | .ok d2 =>
      match dispatchList fuel body new_depth d2 with
      | .error d => .error d
      | .ok d3 =>
        match orelse with
        | [PyNode.ifStmt loc2 t2 b2 o2] => _enter_if fuel loc2 t2 b2 o2 depth true d3
        | _ => dispatchList fuel orelse new_depth d3
termination_by structural fuel
end

/-- STR002.check: the whole traversal runs under a try/except Exception
that swallows any internal failure, the rule then returning the
diagnostics list as accumulated. -/
def STR002check (fuel : Nat) (tree : PyModule) (source : String) :
    Except Unit (List Diagnostic) :=
  match dispatchList fuel tree.body 0 [] with
  | .ok diagnostics => .ok diagnostics
  | .error diagnostics => .ok diagnostics

/-! ### DOC001 (docs.py)

Unlike STR002, DOC001.check has no try/except anywhere, and its helper
_has_explicit_raise recurses through arbitrarily deep expression trees,
so exhausting the recursion budget (RecursionError in Python) propagates
out of the rule and, since Analyzer.analyze has no per-rule catch,
aborts the whole analysis. -/

/-- isinstance(child, _NESTED_SCOPE): FunctionDef, AsyncFunctionDef,
ClassDef, Lambda. -/
def isNestedScope : PyNode → Bool
  | .funcDef _ _ _ => true
  | .scopeDef _ _ => true
  | _ => false

mutual
/-- _has_explicit_raise: true if the node contains a non-bare raise
outside nested scopes.  The recursion carries a fuel bound whose
exhaustion models RecursionError; there is no catch here or in the
caller. -/
def _has_explicit_raise (fuel : Nat) (node : PyNode) : Except Unit Bool :=
  match fuel with
  | 0 => .error ()
  | fuel + 1 =>
    match node with
    | .raiseStmt _ excPresent => .ok excPresent
    | _ => raiseScan fuel (childNodes node)

/-- The child loop of _has_explicit_raise: skip nested scopes, return
True on the first child that contains an explicit raise. -/
def raiseScan (fuel : Nat) (children : List PyNode) : Except Unit Bool :=
  match fuel with
  | 0 => .error ()
  | fuel + 1 =>
    match children with
    | [] => .ok false
    | child :: rest =>
      if isNestedScope child then raiseScan fuel rest
      else
        match _has_explicit_raise fuel child with
        | .error e => .error e
        | .ok true => .ok true
        | .ok false => raiseScan fuel rest
end

/-- _get_docstring: the string of a leading Expr-Constant-str statement
of the function body, if any. -/
def _get_docstring (body : List PyNode) : Option String :=
  match body with
  | .docExpr _ (some s) :: _ => some s
  | _ => none

/-- The docstring line loop of _has_raises_section: Google style
(Raises:) or NumPy style (Raises followed by a nonempty all-dash
line). -/
def raisesSectionScan : List String → Bool
  | [] => false
  | line :: rest =>
    let stripped := String.mk (stripChars line.data)
    if stripped = "Raises:" then true
    else
      if stripped = "Raises" then
        match rest with
        | next :: _ =>
          let ns := stripChars next.data
          if !ns.isEmpty && ns.all (fun c => c == '-') then true
          else raisesSectionScan rest
        | [] => raisesSectionScan rest
      else raisesSectionScan rest

/-- _has_raises_section on a docstring. -/
def _has_raises_section (docstring : String) : Bool :=
  raisesSectionScan (splitlinesPy docstring)

/-- The loop of DOC001.check over the walked nodes: a diagnostic for
each docstring-bearing function that raises without a Raises section.
The _has_explicit_raise call is unguarded: its error propagates. -/
def DOC001go (fuel : Nat) : List PyNode → List Diagnostic → Except Unit (List Diagnostic)
  | [], acc => .ok acc
  | node :: rest, acc =>
    match node with
    | .funcDef loc name body =>
      match _get_docstring body with
      | none => DOC001go fuel rest acc
      | some docstring =>
        match _has_explicit_raise fuel (.funcDef loc name body) with
        | .error e => .error e
        | .ok false => DOC001go fuel rest acc
        | .ok true =>
          if _has_raises_section docstring then DOC001go fuel rest acc
          else DOC001go fuel rest (acc ++
            [⟨"DOC001",
              s!"Function `{name}` raises exceptions but its docstring has no `Raises` section",
              loc.lineno, loc.col_offset,
              loc.end_lineno.getD loc.lineno, loc.end_col_offset.getD loc.col_offset,
              Severity.WARNING, none⟩])
    | _ => DOC001go fuel rest acc

/-- DOC001.check: no internal catch anywhere. -/
def DOC001check (fuel : Nat) (tree : PyModule) (source : String) :
    Except Unit (List Diagnostic) :=
  DOC001go fuel (walk tree) []

/-! ## Claim theorem: rule failure isolation -/

theorem IMP001go_ok (findSpec : String → Except Unit Bool) :
    ∀ (nodes : List PyNode) (acc : List Diagnostic),
      ∃ l, IMP001go findSpec nodes acc = .ok l := by
  intro nodes
  induction nodes with
  | nil => intro acc; exact ⟨acc, rfl⟩
  | cons node rest ih =>
    intro acc
    cases node with
    | importFrom loc module names level =>
      rw [IMP001go]
      simp only
      split
      · exact ih acc
      · split <;> split <;> exact ih _
    | importStmt loc names => exact ih acc
    | funcDef loc nm body => exact ih acc
    | scopeDef loc ch => exact ih acc
    | ifStmt loc t b o => exact ih acc
    | nesting loc ch => exact ih acc
    | raiseStmt loc e => exact ih acc
    | docExpr loc s => exact ih acc
    | other loc ch => exact ih acc

/-- C5 counterexample: DOC001.check has no try/except and its recursive
_has_explicit_raise helper exhausts the recursion budget on a
syntactically valid, deeply nested function body, so the check raises
(RecursionError in Python) instead of being caught within the rule --
refuting the claim that every registry rule's check does not raise; on
the same tree with the same budget the guarded STR002.check still
returns normally, and since Analyzer.analyze has no per-rule catch the
DOC001 failure aborts the whole analysis. -/
theorem doc001_check_raises_counterexample :
    DOC001check 6
        ⟨[PyNode.funcDef ⟨1, 0, none, none⟩ "f"
          [PyNode.docExpr ⟨2, 4, none, none⟩ (some "doc"),
           PyNode.other ⟨3, 4, none, none⟩
            [PyNode.other ⟨3, 4, none, none⟩
              [PyNode.other ⟨3, 4, none, none⟩
                [PyNode.raiseStmt ⟨3, 4, none, none⟩ true]]]]]⟩ "" = .error ()
    ∧ STR002check 6
        ⟨[PyNode.funcDef ⟨1, 0, none, none⟩ "f"
          [PyNode.docExpr ⟨2, 4, none, none⟩ (some "doc"),
           PyNode.other ⟨3, 4, none, none⟩
            [PyNode.other ⟨3, 4, none, none⟩
              [PyNode.other ⟨3, 4, none, none⟩
                [PyNode.raiseStmt ⟨3, 4, none, none⟩ true]]]]]⟩ "" = .ok [] :=
  ⟨rfl, rfl⟩

/-- C5 amended: failure isolation holds for the checkers that guard
their work, not for the whole registry: IMP001.check never raises
because the fallible find_spec call is caught inside _is_submodule, and
STR002.check never raises because its traversal runs under a blanket
try/except, for every tree, source, importlib oracle and recursion
budget; a rule-internal error there degrades to that rule returning the
diagnostics accumulated so far, so the remaining rules still run.
Registry rules without an internal catch, such as DOC001, do not enjoy
this (see the C5 counterexample). -/
theorem rule_checks_do_not_raise (findSpec : String → Except Unit Bool) (fuel : Nat)
    (tree : PyModule) (source : String) :
    (∃ l, IMP001check findSpec tree source = .ok l)
    ∧ (∃ l, STR002check fuel tree source = .ok l) := by
  constructor
  · exact IMP001go_ok findSpec (walk tree) []
  · unfold STR002check
    cases dispatchList fuel tree.body 0 [] with
    | ok d => exact ⟨d, rfl⟩
    | error d => exact ⟨d, rfl⟩

end Sergey
